import Mathlib

/-!
# Verification of the job-scanner request pipeline

Shallow embedding of the job-scanner repository's pipeline logic:
the JSON extractor, the transport retry loops, the fallback
orchestration of both app variants, the id post-processing, the
diagnostic request logging, the link rendering decision and the
feedback toggling. Strings are modelled as lists of characters.
-/

namespace JobScanner

/-- A string literal's underlying character list. -/
def chars (s : String) : List Char := s.data

/-- JavaScript whitespace class, as used by the regex class and by trim:
tab, line feed, vertical tab, form feed, carriage return, space, NBSP,
Ogham space, the U+2000 range, line/paragraph separators, narrow NBSP,
medium mathematical space, ideographic space and BOM. -/
def jsWhitespace (c : Char) : Bool :=
  c.toNat = 9 || c.toNat = 10 || c.toNat = 11 || c.toNat = 12 || c.toNat = 13 ||
  c.toNat = 32 || c.toNat = 0xa0 || c.toNat = 0x1680 ||
  (0x2000 ≤ c.toNat && c.toNat ≤ 0x200a) ||
  c.toNat = 0x2028 || c.toNat = 0x2029 || c.toNat = 0x202f ||
  c.toNat = 0x205f || c.toNat = 0x3000 || c.toNat = 0xfeff

/-- JavaScript's trim: drop whitespace at both ends. -/
def trimJs (s : List Char) : List Char :=
  ((s.dropWhile jsWhitespace).reverse.dropWhile jsWhitespace).reverse

/-- Does the second list start with the first (String.startsWith of the code)? -/
def listStartsWith : List Char → List Char → Bool
  | [], _ => true
  | _ :: _, [] => false
  | p :: ps, c :: cs => p = c && listStartsWith ps cs

/-- String.includes of the code: does the haystack contain the needle? -/
def hasSubstring (needle : List Char) : List Char → Bool
  | [] => listStartsWith needle []
  | c :: t => listStartsWith needle (c :: t) || hasSubstring needle t

/-- Decimal digits of n, most significant first (helper with fuel). -/
def natToCharsAux : Nat → Nat → List Char
  | 0, _ => []
  | fuel + 1, n => if n = 0 then [] else natToCharsAux fuel (n / 10) ++ [Nat.digitChar (n % 10)]

/-- The decimal rendering of a natural number, as JavaScript template
interpolation and String(n) produce it. -/
def natToChars (n : Nat) : List Char :=
  if n = 0 then ['0'] else natToCharsAux (n + 1) n

/-! ## The extractor (extractJsonFromText, src/api/search.js lines 298-313)

The source uses two regexes.  The first finds the leftmost fenced block:
an opening triple backtick, an optional json tag, and the lazily matched
interior up to the first closing triple backtick.  The second finds the
span from the first opening bracket to the last closing bracket. -/

/-- The backtick character. -/
def backtick : Char := Char.ofNat 96

/-- Three backticks: the fence delimiter of the markdown regex. -/
def fenceChars : List Char := [backtick, backtick, backtick]

/-- Does the text begin with a triple backtick fence? -/
def startsWithFence : List Char → Bool
  | a :: b :: c :: _ => a = backtick && b = backtick && c = backtick
  | _ => false

/-- Split the text at its first triple-backtick fence, returning the part
before the fence and the part after it; none when no fence occurs. -/
def splitAtFence : List Char → Option (List Char × List Char)
  | [] => none
  | a :: rest =>
    if startsWithFence (a :: rest) then some ([], (a :: rest).drop 3)
    else (splitAtFence rest).map (fun p => (a :: p.1, p.2))

/-- Does the text begin with the literal tag json (the optional tag of the
markdown regex, consumed greedily when present)? -/
def hasJsonTag (l : List Char) : Bool := listStartsWith "json".data l

/-- The interior captured by the first markdown-fence regex: text after the
first fence (minus an optional json tag) up to the next fence.  The regex
places surrounding whitespace outside the capture; since the caller trims
the capture, keeping that whitespace here is observationally equal. -/
def fenceInterior (text : List Char) : Option (List Char) :=
  match splitAtFence text with
  | none => none
  | some (_, afterOpen) =>
    let body := if hasJsonTag afterOpen then afterOpen.drop 4 else afterOpen
    match splitAtFence body with
    | none => none
    | some (interior, _) => some interior

/-- The longest part of the text ending at its last closing bracket,
inclusive; none when the text holds no closing bracket. -/
def upToLastClose : List Char → Option (List Char)
  | [] => none
  | c :: rest =>
    match upToLastClose rest with
    | some tail => some (c :: tail)
    | none => if c = ']' then some [c] else none

/-- The span matched by the array regex: from the first opening bracket to
the last closing bracket after it. -/
def arraySpan (text : List Char) : Option (List Char) :=
  match text.dropWhile (fun c => c ≠ '[') with
  | [] => none
  | br :: tail =>
    match upToLastClose tail with
    | none => none
    | some body => some (br :: body)

/-- extractJsonFromText: first the trimmed interior of the first fenced
block, else the trimmed first-bracket-to-last-bracket span, else the whole
text trimmed. -/
def extractJsonFromText (text : List Char) : List Char :=
  match fenceInterior text with
  | some interior => trimJs interior
  | none =>
    match arraySpan text with
    | some arr => trimJs arr
    | none => trimJs text

/-! ## Job listings and id post-processing -/

/-- A job id as delivered by the model or the fallback data: absent,
a number, or a string. -/
inductive IdVal
  | noId
  | num (n : Nat)
  | str (s : List Char)
  deriving DecidableEq, Repr

/-- A JobListing record.  The type field is named jobType because type is
reserved; url, salary and posted may be absent in live data. -/
structure Job where
  id : IdVal
  title : List Char
  company : List Char
  location : List Char
  jobType : List Char
  description : List Char
  url : Option (List Char)
  salary : Option (List Char)
  posted : Option (List Char)
  deriving DecidableEq, Repr

/-- JavaScript truthiness of an id value: absent, zero and the empty
string are falsy. -/
def truthyId : IdVal → Bool
  | .noId => false
  | .num n => n ≠ 0
  | .str s => s ≠ []

/-- String(id): decimal rendering of a number, a string verbatim. -/
def idToChars : IdVal → List Char
  | .noId => "undefined".data
  | .num n => natToChars n
  | .str s => s

/-- The synthetic id fallback-job-&lt;index&gt; generated from the position. -/
def fallbackJobId (index : Nat) : List Char :=
  "fallback-job-".data ++ natToChars index

/-- The id written by the post-processing map at a given position. -/
def finalIdChars (index : Nat) (job : Job) : List Char :=
  if truthyId job.id then idToChars job.id else fallbackJobId index

/-- Helper for processIds, carrying the current index. -/
def processIdsAux : Nat → List Job → List Job
  | _, [] => []
  | index, job :: rest =>
    { job with id := IdVal.str (finalIdChars index job) } :: processIdsAux (index + 1) rest

/-- The result post-processing map of both handleSearch variants: every
listing's id becomes String(id) when the source id is truthy, and the
position-keyed synthetic id otherwise. -/
def processIds (jobs : List Job) : List Job := processIdsAux 0 jobs

/-- The hardcoded fallback dataset RICH_FALLBACK_JOBS. -/
def RICH_FALLBACK_JOBS : List Job :=
  [ { id := .num 101, title := "English-Speaking Office Coordinator".data,
      company := "TechHub Vienna".data, location := "Vienna, 1010".data,
      jobType := "Full-time".data,
      description := "Manage office logistics and support the international team. Requires excellent English communication skills.".data,
      url := some "#".data, salary := some "€32,000 - €36,000".data,
      posted := some "1 day ago".data },
    { id := .num 102, title := "Part-Time Animal Care Assistant".data,
      company := "Mödling Vet Clinic".data, location := "Mödling".data,
      jobType := "Part-time".data,
      description := "Assist veterinarians with basic patient care and administrative tasks. No German required.".data,
      url := some "#".data, salary := some "€15/hour".data,
      posted := some "3 days ago".data },
    { id := .num 103, title := "Entry-Level Data Entry Specialist".data,
      company := "Global Logistics AG".data, location := "Vienna, 1030".data,
      jobType := "Contract".data,
      description := "Input and verify shipping data for European distribution networks. Fast-paced, detail-oriented work.".data,
      url := some "#".data, salary := some "Not specified".data,
      posted := some "1 week ago".data },
    { id := .num 104, title := "Hotel Front Desk Intern (Summer)".data,
      company := "Imperial Palace Hotel".data, location := "Vienna, 1070".data,
      jobType := "Internship".data,
      description := "Join our hospitality team for a 3-month paid internship. Focus on guest relations and check-in procedures.".data,
      url := some "#".data, salary := some "€800/month".data,
      posted := some "5 days ago".data } ]

/-! ## The transport retry loops

Both monolithic transport functions loop over at most maxRetries = 5
attempts.  Each attempt's end-to-end outcome (HTTP success with a parsed
envelope, a non-success status, or a rejected fetch) is an input to the
model, indexed by attempt number. -/

/-- Outcome of one fetch attempt: a parsed envelope body, a non-success
HTTP status, or a network-level failure carrying its message. -/
inductive FetchOutcome
  | ok (envelope : List Char)
  | status (code : Nat)
  | netErr (msg : List Char)
  deriving DecidableEq, Repr

/-- The thrown message of a failed attempt: the dedicated 401 message, the
generic status message, or the network failure's own message. -/
def outcomeMsg : FetchOutcome → List Char
  | .ok _ => []
  | .status code =>
    if code = 401 then "HTTP error! status: 401 (Unauthorized)".data
    else "HTTP error! status: ".data ++ natToChars code
  | .netErr msg => msg

deriving instance DecidableEq for Except

/-- What one run of a retry loop did: the propagated result, the number of
attempts performed, and the backoff delays inserted (milliseconds, in
order; the delay at position i separates attempt i from attempt i+1). -/
structure RetryTrace where
  result : Except (List Char) (List Char)
  attempts : Nat
  delays : List Nat
  deriving DecidableEq, Repr

/-- The fixed attempt budget of both loops. -/
def maxRetries : Nat := 5

/-- The search transport loop from a given attempt number with a given
number of iterations left: success breaks out; an error whose message
contains 401 is rethrown at once; the last attempt's error is thrown;
otherwise a 2^attempt second delay is inserted and the loop retries. -/
def searchRetryAux (outcomes : Nat → FetchOutcome) : Nat → Nat → RetryTrace
  | _, 0 => ⟨.error "API call failed after all retries.".data, 0, []⟩
  | attempt, remaining + 1 =>
    match outcomes attempt with
    | .ok envelope => ⟨.ok envelope, 1, []⟩
    | o =>
      let m := outcomeMsg o
      if hasSubstring "401".data m then ⟨.error m, 1, []⟩
      else if remaining = 0 then ⟨.error m, 1, []⟩
      else
        let t := searchRetryAux outcomes (attempt + 1) remaining
        ⟨t.result, t.attempts + 1, 2 ^ attempt * 1000 :: t.delays⟩

/-- The retry loop of fetchStructuredJobData (src/api/search.js lines
405-433). -/
def fetchStructuredJobDataLoop (outcomes : Nat → FetchOutcome) : RetryTrace :=
  searchRetryAux outcomes 0 maxRetries

/-- The insights transport loop: identical, except that no error message
short-circuits — every failure before the last attempt is retried. -/
def insightsRetryAux (outcomes : Nat → FetchOutcome) : Nat → Nat → RetryTrace
  | _, 0 => ⟨.error "API call failed after all retries.".data, 0, []⟩
  | attempt, remaining + 1 =>
    match outcomes attempt with
    | .ok envelope => ⟨.ok envelope, 1, []⟩
    | o =>
      let m := outcomeMsg o
      if remaining = 0 then ⟨.error m, 1, []⟩
      else
        let t := insightsRetryAux outcomes (attempt + 1) remaining
        ⟨t.result, t.attempts + 1, 2 ^ attempt * 1000 :: t.delays⟩

/-- The retry loop of fetchAIInsights (src/api/search.js lines 503-521). -/
def fetchAIInsightsLoop (outcomes : Nat → FetchOutcome) : RetryTrace :=
  insightsRetryAux outcomes 0 maxRetries

/-! ## Fallback orchestration

Two handleSearch variants exist: the monolithic client embedded in
src/api/search.js (lines 625-696), which substitutes the fallback dataset
on every failure, and src/src/App.jsx (lines 90-161), which substitutes
the empty result set on failure and uses the fallback dataset only under
the forced-fallback testing switch. -/

/-- What JSON.parse produced for the job stage: an array of listings, or
some non-array value. -/
inductive FetchedData
  | arr (jobs : List Job)
  | nonArray
  deriving DecidableEq

/-- The canned insight string returned by fetchAIInsights when isFallback
is set, before any network interaction. -/
def cannedFallbackInsight : List Char :=
  ("📊 AI Analysis: Based on the **Fallback Data** provided, the results are a good match for \"English-speaking entry-level\" roles in the hospitality and administrative sectors. You successfully targeted specific locations like Mödling and Vienna.\n        \n💡 Tip: Since the job market for English-only roles is competitive, consider broadening your search terms to include roles that may be bilingual but accept English as the primary internal language.\n\n🔑 Suggested keywords to add: 'customer support', 'Bilingual', 'office assistant', 'minijob'\n❌ Consider removing: 'fast food' (unless specifically desired), 'animal care' (if you want to focus on office/hospitality)").data

/-- The no-results diagnostic of the monolithic handleSearch. -/
def noResultsMsgSearchJs : List Char :=
  "Search completed, but the model could not find or extract any structured job listings based on your criteria. Try broadening your search.".data

/-- The authentication diagnostic of the monolithic handleSearch. -/
def authFailedMsg : List Char :=
  "Authentication Failed (401). The live API key cannot be injected. Showing **Fallback Data** to demonstrate app functionality.".data

/-- The generic failure diagnostic of the monolithic handleSearch,
carrying the underlying message. -/
def criticalMsgSearchJs (m : List Char) : List Char :=
  "A critical API error occurred during the search. Showing fallback data. Error: ".data ++ m

/-- Outcome of the monolithic handleSearch: final listings, diagnostic,
fallback flag, and the insights string. -/
structure SearchJsResult where
  jobs : List Job
  searchError : List Char
  isFallbackMode : Bool
  aiInsights : List Char
  deriving DecidableEq

/-- The monolithic handleSearch orchestration: empty or non-array parses
and every thrown error substitute RICH_FALLBACK_JOBS and set the fallback
flag, with a three-way diagnostic (authentication / critical error with
the message / no results); ids are stringified; insights are the canned
string on the fallback edge and the live insight result otherwise. -/
def searchJsHandleSearch (fetchResult : Except (List Char) FetchedData)
    (insightFetch : Except (List Char) (List Char)) : SearchJsResult :=
  let step :=
    match fetchResult with
    | .ok (.arr js) =>
      if js.isEmpty then (RICH_FALLBACK_JOBS, true, noResultsMsgSearchJs)
      else (js, false, ([] : List Char))
    | .ok .nonArray => (RICH_FALLBACK_JOBS, true, noResultsMsgSearchJs)
    | .error m =>
      if hasSubstring "HTTP error! status: 401".data m then
        (RICH_FALLBACK_JOBS, true, authFailedMsg)
      else (RICH_FALLBACK_JOBS, true, criticalMsgSearchJs m)
  let finalJobs := processIds step.1
  let insights :=
    if step.2.1 then cannedFallbackInsight
    else
      match insightFetch with
      | .ok s => s
      | .error _ => "Failed to generate insights.".data
  ⟨finalJobs, step.2.2, step.2.1, insights⟩

/-- An insights value held by App.jsx: the canned string, a structured
report from the live endpoint, or the structured failure object written
by generateAIInsights's catch. -/
inductive InsightVal
  | text (s : List Char)
  | report (analysis suggestions : List Char) (keywordsToAdd keywordsToRemove : List (List Char))
  | errObj (analysis : List Char)
  deriving DecidableEq

/-- The forced-fallback diagnostic of App.jsx. -/
def displayingFallbackMsg : List Char :=
  "Displaying hardcoded fallback data as requested by the testing setting.".data

/-- The no-results diagnostic of App.jsx. -/
def noResultsMsgApp : List Char :=
  "No Results Found. The AI could not find any job listings matching your criteria. Try broadening your search terms.".data

/-- The missing-key configuration diagnostic of App.jsx. -/
def configErrorMsg : List Char :=
  "Configuration Error: The GEMINI_API_KEY is missing. \n        - If running locally with 'vercel dev', ensure your '.env.development.local' file is correct.\n        - If this is a deployed app, check your Environment Variables in your Vercel project settings.".data

/-- The generic failure diagnostic of App.jsx, carrying the message. -/
def criticalMsgApp (m : List Char) : List Char :=
  "A critical API error occurred during the search. Error: ".data ++ m

/-- The state App.jsx's handleSearch leaves behind, together with how many
network calls each stage issued. -/
structure AppState where
  jobs : List Job
  searchError : List Char
  isFallbackMode : Bool
  aiInsights : Option InsightVal
  searchNetCalls : Nat
  insightNetCalls : Nat
  deriving DecidableEq

/-- App.jsx's handleSearch: under the forced-fallback switch it loads the
stringified fallback dataset and the canned insight with zero network
calls; otherwise it fetches, reduces failures and empty parses to the
empty result set with the matching diagnostic, and runs the insights
stage only when at least one record survived. -/
def appHandleSearch (useFallbackForTesting : Bool)
    (searchFetch : Except (List Char) FetchedData)
    (insightFetch : Except (List Char) InsightVal) : AppState :=
  if useFallbackForTesting then
    { jobs := processIds RICH_FALLBACK_JOBS,
      searchError := displayingFallbackMsg,
      isFallbackMode := true,
      aiInsights := some (.text cannedFallbackInsight),
      searchNetCalls := 0, insightNetCalls := 0 }
  else
    let step :=
      match searchFetch with
      | .ok (.arr js) =>
        if js.isEmpty then (([] : List Job), noResultsMsgApp) else (js, ([] : List Char))
      | .ok .nonArray => ([], noResultsMsgApp)
      | .error m =>
        ([], if hasSubstring "GEMINI_API_KEY".data m then configErrorMsg else criticalMsgApp m)
    let finalJobs := processIds step.1
    let runInsights := decide (0 < finalJobs.length)
    { jobs := finalJobs, searchError := step.2, isFallbackMode := false,
      aiInsights :=
        if runInsights then
          some (match insightFetch with
                | .ok v => v
                | .error m => .errObj ("Insight generation failed: ".data ++ m))
        else none,
      searchNetCalls := 1,
      insightNetCalls := if runInsights then 1 else 0 }

/-! ## Diagnostic request logging (credential redaction) -/

/-- The configured model name. -/
def MODEL : List Char := "gemini-2.5-flash-preview-05-20".data

/-- The generation endpoint. -/
def API_ENDPOINT : List Char :=
  "https://generativelanguage.googleapis.com/v1beta/models/".data ++ MODEL
    ++ ":generateContent".data

/-- What a console request-details group records: the logged URL and the
logged header map. -/
structure RequestLog where
  url : List Char
  headers : List (List Char × List Char)
  deriving DecidableEq

/-- The headers built for the search and insights calls: Content-Type,
plus the credential header when a key is present (truthy). -/
def buildApiHeaders (apiKey : List Char) : List (List Char × List Char) :=
  ("Content-Type".data, "application/json".data) ::
    (if apiKey ≠ [] then [("x-goog-api-key".data, apiKey)] else [])

/-- The copy of the headers made for logging, with the credential header
deleted. -/
def headersForLogging (hs : List (List Char × List Char)) : List (List Char × List Char) :=
  hs.filter (fun h => h.1 ≠ "x-goog-api-key".data)

/-- The request-details group logged by fetchStructuredJobData: the bare
endpoint URL (the key travels in a header) and the redacted header copy. -/
def searchRequestLog (apiKey : List Char) : RequestLog :=
  { url := API_ENDPOINT, headers := headersForLogging (buildApiHeaders apiKey) }

/-- The request-details group logged by runSimpleApiTest: the URL carries
the key as a query parameter and is logged as is. -/
def runSimpleApiTestLog (apiKey : List Char) : RequestLog :=
  { url := API_ENDPOINT ++ "?key=".data ++ apiKey,
    headers := [("Content-Type".data, "application/json".data)] }

/-- The request-details group logged by runGoldApiTest: same keyed URL. -/
def runGoldApiTestLog (apiKey : List Char) : RequestLog :=
  { url := API_ENDPOINT ++ "?key=".data ++ apiKey,
    headers := [("Content-Type".data, "application/json".data)] }

/-! ## Link rendering and feedback -/

/-- The guard of the View Job anchor: the url must be truthy and start
with an absolute http or https scheme. -/
def isValidUrlJs (url : Option (List Char)) : Bool :=
  match url with
  | none => false
  | some s =>
    (s ≠ []) && (listStartsWith "http://".data s || listStartsWith "https://".data s)

/-- How the anchor is rendered: its href, the aria-disabled attribute, and
whether the click handler suppresses activation (preventDefault). -/
structure RenderedLink where
  href : Option (List Char)
  ariaDisabled : Bool
  activationSuppressed : Bool
  deriving DecidableEq

/-- The View Job anchor for one listing. -/
def renderJobLink (job : Job) : RenderedLink :=
  let v := isValidUrlJs job.url
  { href := job.url, ariaDisabled := !v, activationSuppressed := !v }

/-- A feedback button kind. -/
inductive FType
  | positive
  | negative
  deriving DecidableEq

/-- handleFeedback: clicking the same kind again deletes the entry, any
other click overwrites that job's entry; all other entries are copied. -/
def handleFeedback (fb : List Char → Option FType) (jobId : List Char) (t : FType) :
    List Char → Option FType :=
  fun i => if i = jobId then (if fb jobId = some t then none else some t) else fb i

/-! ## Concrete inputs and proof devices -/

/-- The feedback state used to refute the claim's universal double-click
law: the job already carries a positive entry. -/
def fbCounterState : List Char → Option FType :=
  fun i => if i = "101".data then some .positive else none

/-- The attempt outcomes refuting the claim's backoff indexing: the first
attempt fails with HTTP 500 and the second succeeds. -/
def oneFailOutcomes : Nat → FetchOutcome :=
  fun k => if k = 0 then .status 500 else .ok "body".data

/-- Attempt outcomes that fail with HTTP 500 on every attempt. -/
def all500Outcomes : Nat → FetchOutcome := fun _ => .status 500

/-- Attempt outcomes returning HTTP 401 on every attempt. -/
def all401Outcomes : Nat → FetchOutcome := fun _ => .status 401

/-- Decode a decimal character list back into a number (proof device for
the injectivity of the decimal rendering). -/
def decodeDec (l : List Char) : Nat :=
  l.foldl (fun acc c => acc * 10 + (c.toNat - 48)) 0

/-- A listing with only an id, for concrete inputs. -/
def mkJob (id : IdVal) : Job :=
  ⟨id, [], [], [], [], [], none, none, none⟩

/-- Two listings sharing the source id 7. -/
def dupIdJobs : List Job := [mkJob (.num 7), mkJob (.num 7)]

/-- A mixed list: distinct truthy ids and one missing id. -/
def mixedIdJobs : List Job := [mkJob (.num 3), mkJob .noId, mkJob (.str "x".data)]

/-! ## Helper lemmas -/

lemma listStartsWith_iff (p : List Char) : ∀ s : List Char,
    listStartsWith p s = true ↔ ∃ rest, s = p ++ rest := by
  induction p with
  | nil => intro s; simp [listStartsWith]
  | cons a ps ih =>
    intro s
    cases s with
    | nil => simp [listStartsWith]
    | cons c cs =>
      simp only [listStartsWith, Bool.and_eq_true, decide_eq_true_eq, ih,
        List.cons_append, List.cons.injEq]
      constructor
      · rintro ⟨rfl, rest, rfl⟩; exact ⟨rest, rfl, rfl⟩
      · rintro ⟨rest, rfl, rfl⟩; exact ⟨rfl, rest, rfl⟩

/-! ## C9: link rendering -/

/-- C9: a listing's View Job anchor allows activation exactly when its url
is present and begins with an absolute http or https scheme; every
processed fallback listing (url "#") renders with activation suppressed,
and the aria-disabled attribute always agrees with the suppression. -/
theorem viewJobLink_actionable_iff (job : Job) :
    ((renderJobLink job).activationSuppressed = false ↔
      ∃ rest, job.url = some ("http://".data ++ rest) ∨ job.url = some ("https://".data ++ rest))
    ∧ (renderJobLink job).ariaDisabled = (renderJobLink job).activationSuppressed
    ∧ ∀ fj ∈ processIds RICH_FALLBACK_JOBS, (renderJobLink fj).activationSuppressed = true := by
  refine ⟨?_, rfl, by decide⟩
  cases hu : job.url with
  | none => simp [renderJobLink, isValidUrlJs, hu]
  | some s =>
    simp only [renderJobLink, isValidUrlJs, hu, Bool.not_eq_false', Bool.and_eq_true,
      Bool.or_eq_true, listStartsWith_iff, Option.some.injEq, ne_eq, decide_eq_true_eq]
    constructor
    · rintro ⟨hne, ⟨rest, rfl⟩ | ⟨rest, rfl⟩⟩
      · exact ⟨rest, Or.inl rfl⟩
      · exact ⟨rest, Or.inr rfl⟩
    · rintro ⟨rest, rfl | rfl⟩
      · exact ⟨by simp, Or.inl ⟨rest, rfl⟩⟩
      · exact ⟨by simp, Or.inr ⟨rest, rfl⟩⟩

/-- C9 witness: the first processed fallback listing is a member of the
processed fallback dataset and renders with activation suppressed. -/
theorem viewJobLink_actionable_iff_witness :
    ((processIds RICH_FALLBACK_JOBS).get ⟨0, by decide⟩) ∈ processIds RICH_FALLBACK_JOBS
    ∧ (renderJobLink
        ((processIds RICH_FALLBACK_JOBS).get ⟨0, by decide⟩)).activationSuppressed = true :=
  ⟨List.get_mem _ _ _,
   (viewJobLink_actionable_iff (mkJob IdVal.noId)).2.2
     ((processIds RICH_FALLBACK_JOBS).get ⟨0, by decide⟩) (List.get_mem _ _ _)⟩

/-! ## C10: feedback toggling -/

/-- C10 (amended): handleFeedback never changes other jobs' entries; a
same-type click deletes the entry and any other click overwrites it; a
double same-type application removes the entry when the job's entry
differed from the applied type, but is the identity when the entry
already equalled it. -/
theorem handleFeedback_amended (fb : List Char → Option FType) (j : List Char)
    (t : FType) (i : List Char) :
    (i ≠ j → handleFeedback fb j t i = fb i)
    ∧ (fb j = some t → handleFeedback fb j t j = none)
    ∧ (fb j ≠ some t → handleFeedback fb j t j = some t)
    ∧ (fb j ≠ some t →
        handleFeedback (handleFeedback fb j t) j t i = if i = j then none else fb i)
    ∧ (fb j = some t → handleFeedback (handleFeedback fb j t) j t i = fb i) := by
  refine ⟨?_, ?_, ?_, ?_, ?_⟩
  · intro hij; simp [handleFeedback, hij]
  · intro h; simp [handleFeedback, h]
  · intro h; simp [handleFeedback, h]
  · intro h
    by_cases hij : i = j <;> simp [handleFeedback, h, hij]
  · intro h
    by_cases hij : i = j <;> simp [handleFeedback, h, hij]


/-- C10 counterexample: starting from a state whose entry for job 101 is
already positive, clicking positive twice yields the entry positive again,
not the claimed state with the entry removed. -/
theorem handleFeedback_claim_counterexample :
    handleFeedback (handleFeedback fbCounterState "101".data .positive)
        "101".data .positive "101".data = some FType.positive
    ∧ some FType.positive ≠ (none : Option FType) := by
  constructor
  · decide
  · decide

/-- C10 witness: a state with no entry for job a; one positive click sets
the entry. -/
theorem handleFeedback_amended_witness :
    ((fun _ : List Char => (none : Option FType)) "a".data ≠ some FType.positive)
    ∧ handleFeedback (fun _ : List Char => (none : Option FType)) "a".data
        FType.positive "a".data = some FType.positive :=
  ⟨by decide,
   (handleFeedback_amended (fun _ => none) "a".data FType.positive "a".data).2.2.1 (by decide)⟩

/-! ## C5: forced-fallback mode -/

/-- C5: under the forced-fallback testing switch a search makes zero
network calls on either stage, produces the fixed dataset with stringified
ids and the canned insight string, and two invocations with arbitrary
(even different) transport behaviour produce identical states. -/
theorem forcedFallback_deterministic (sf sf2 : Except (List Char) FetchedData)
    (insF insF2 : Except (List Char) InsightVal) :
    (appHandleSearch true sf insF).searchNetCalls = 0
    ∧ (appHandleSearch true sf insF).insightNetCalls = 0
    ∧ (appHandleSearch true sf insF).jobs = processIds RICH_FALLBACK_JOBS
    ∧ (appHandleSearch true sf insF).jobs.map (fun jb => jb.id)
        = [IdVal.str "101".data, IdVal.str "102".data,
           IdVal.str "103".data, IdVal.str "104".data]
    ∧ (appHandleSearch true sf insF).aiInsights = some (.text cannedFallbackInsight)
    ∧ (appHandleSearch true sf insF).isFallbackMode = true
    ∧ appHandleSearch true sf insF = appHandleSearch true sf2 insF2 := by
  refine ⟨rfl, rfl, rfl, rfl, rfl, rfl, rfl⟩

/-! ## C6: when the insights stage runs -/

/-- C6: with the live path returning zero records (empty array, non-array
parse, or a thrown error) the insights stage is skipped entirely — no
insight value is produced and no insight network call is made — while in
forced-fallback mode it still runs without any network call and yields
the canned insight string. -/
theorem insights_skip_and_forced (insF : Except (List Char) InsightVal)
    (m : List Char) (sf : Except (List Char) FetchedData) :
    ((appHandleSearch false (.ok (.arr [])) insF).aiInsights = none
      ∧ (appHandleSearch false (.ok (.arr [])) insF).insightNetCalls = 0)
    ∧ ((appHandleSearch false (.ok .nonArray) insF).aiInsights = none
      ∧ (appHandleSearch false (.ok .nonArray) insF).insightNetCalls = 0)
    ∧ ((appHandleSearch false (.error m) insF).aiInsights = none
      ∧ (appHandleSearch false (.error m) insF).insightNetCalls = 0)
    ∧ ((appHandleSearch true sf insF).aiInsights = some (.text cannedFallbackInsight)
      ∧ (appHandleSearch true sf insF).insightNetCalls = 0
      ∧ (appHandleSearch true sf insF).searchNetCalls = 0) := by
  refine ⟨⟨rfl, rfl⟩, ⟨rfl, rfl⟩, ⟨?_, ?_⟩, rfl, rfl, rfl⟩ <;>
    simp [appHandleSearch, processIds, processIdsAux]

/-! ## C7: credential redaction -/

/-- C7 counterexample: runSimpleApiTest logs a request URL that embeds the
raw credential as a query parameter, so the credential appears verbatim in
a diagnostic logging path; the job-search request log's URL never contains
it. -/
theorem credentialLogging_counterexample :
    hasSubstring "SECRET-KEY-123".data (runSimpleApiTestLog "SECRET-KEY-123".data).url = true
    ∧ hasSubstring "SECRET-KEY-123".data (searchRequestLog "SECRET-KEY-123".data).url = false := by
  constructor
  · decide
  · decide

/-- C7 (amended): the job-search pipeline's request logging redacts the
credential — the logged record is one and the same for every credential
value, its header map holds only the content type, and its URL is the bare
endpoint — but the two connectivity test helpers log a URL with the raw
key appended as a query parameter. -/
theorem credentialRedaction_amended (k k2 : List Char) :
    searchRequestLog k = searchRequestLog k2
    ∧ (searchRequestLog k).headers = [("Content-Type".data, "application/json".data)]
    ∧ (searchRequestLog k).url = API_ENDPOINT
    ∧ (runSimpleApiTestLog k).url = API_ENDPOINT ++ "?key=".data ++ k
    ∧ (runGoldApiTestLog k).url = API_ENDPOINT ++ "?key=".data ++ k := by
  have hred : ∀ key : List Char,
      headersForLogging (buildApiHeaders key)
        = [("Content-Type".data, "application/json".data)] := by
    intro key
    have hct : ¬ ("Content-Type".data = "x-goog-api-key".data) := by decide
    by_cases hk : key = [] <;>
      simp [headersForLogging, buildApiHeaders, hk, List.filter_cons, hct]
  refine ⟨?_, ?_, rfl, rfl, rfl⟩
  · simp [searchRequestLog, hred]
  · simp [searchRequestLog, hred]

/-! ## Retry-loop lemmas -/

lemma searchRetryAux_step_ok (outcomes : Nat → FetchOutcome) (k r : Nat)
    (e : List Char) (hko : outcomes k = .ok e) :
    searchRetryAux outcomes k (r + 1) = ⟨.ok e, 1, []⟩ := by
  simp [searchRetryAux, hko]

lemma searchRetryAux_step_err (outcomes : Nat → FetchOutcome) (k r : Nat)
    (ho : ∀ e, outcomes k ≠ .ok e) :
    searchRetryAux outcomes k (r + 1) =
      if hasSubstring "401".data (outcomeMsg (outcomes k)) = true then
        ⟨.error (outcomeMsg (outcomes k)), 1, []⟩
      else if r = 0 then ⟨.error (outcomeMsg (outcomes k)), 1, []⟩
      else ⟨(searchRetryAux outcomes (k + 1) r).result,
            (searchRetryAux outcomes (k + 1) r).attempts + 1,
            2 ^ k * 1000 :: (searchRetryAux outcomes (k + 1) r).delays⟩ := by
  cases hko : outcomes k with
  | ok e => exact absurd hko (ho e)
  | status c => simp [searchRetryAux, hko]
  | netErr m => simp [searchRetryAux, hko]

lemma insightsRetryAux_step_ok (outcomes : Nat → FetchOutcome) (k r : Nat)
    (e : List Char) (hko : outcomes k = .ok e) :
    insightsRetryAux outcomes k (r + 1) = ⟨.ok e, 1, []⟩ := by
  simp [insightsRetryAux, hko]

lemma insightsRetryAux_step_err (outcomes : Nat → FetchOutcome) (k r : Nat)
    (ho : ∀ e, outcomes k ≠ .ok e) :
    insightsRetryAux outcomes k (r + 1) =
      if r = 0 then ⟨.error (outcomeMsg (outcomes k)), 1, []⟩
      else ⟨(insightsRetryAux outcomes (k + 1) r).result,
            (insightsRetryAux outcomes (k + 1) r).attempts + 1,
            2 ^ k * 1000 :: (insightsRetryAux outcomes (k + 1) r).delays⟩ := by
  cases hko : outcomes k with
  | ok e => exact absurd hko (ho e)
  | status c => simp [insightsRetryAux, hko]
  | netErr m => simp [insightsRetryAux, hko]

lemma searchRetryAux_trace (outcomes : Nat → FetchOutcome) :
    ∀ r k, 0 < r →
      1 ≤ (searchRetryAux outcomes k r).attempts
      ∧ (searchRetryAux outcomes k r).attempts ≤ r
      ∧ (searchRetryAux outcomes k r).delays.length + 1 = (searchRetryAux outcomes k r).attempts
      ∧ ∀ i, ∀ h : i < (searchRetryAux outcomes k r).delays.length,
          (searchRetryAux outcomes k r).delays.get ⟨i, h⟩ = 2 ^ (k + i) * 1000 := by
  intro r
  induction r with
  | zero => intro k h; exact absurd h (by simp)
  | succ r ih =>
    intro k _
    by_cases hok : ∃ e, outcomes k = .ok e
    · obtain ⟨e, he⟩ := hok
      rw [searchRetryAux_step_ok outcomes k r e he]
      exact ⟨le_refl 1, Nat.le_add_left 1 r, rfl, by intro i h; simp at h⟩
    · have ho : ∀ e, outcomes k ≠ .ok e := by intro e he; exact hok ⟨e, he⟩
      rw [searchRetryAux_step_err outcomes k r ho]
      by_cases h401 : hasSubstring "401".data (outcomeMsg (outcomes k)) = true
      · rw [if_pos h401]
        exact ⟨le_refl 1, Nat.le_add_left 1 r, rfl, by intro i h; simp at h⟩
      · rw [if_neg h401]
        by_cases hr : r = 0
        · rw [if_pos hr]
          exact ⟨le_refl 1, Nat.le_add_left 1 r, rfl, by intro i h; simp at h⟩
        · rw [if_neg hr]
          obtain ⟨ih1, ih2, ih3, ih4⟩ := ih (k + 1) (Nat.pos_of_ne_zero hr)
          refine ⟨by simp, by simpa using Nat.add_le_add_right ih2 1, by simpa using ih3, ?_⟩
          intro i h
          cases i with
          | zero => simp
          | succ i =>
            simp only [List.length_cons] at h
            have hi : i < (searchRetryAux outcomes (k + 1) r).delays.length := by omega
            have := ih4 i hi
            simpa [Nat.add_assoc, Nat.add_comm 1 i] using this

lemma insightsRetryAux_trace (outcomes : Nat → FetchOutcome) :
    ∀ r k, 0 < r →
      1 ≤ (insightsRetryAux outcomes k r).attempts
      ∧ (insightsRetryAux outcomes k r).attempts ≤ r
      ∧ (insightsRetryAux outcomes k r).delays.length + 1
          = (insightsRetryAux outcomes k r).attempts
      ∧ ∀ i, ∀ h : i < (insightsRetryAux outcomes k r).delays.length,
          (insightsRetryAux outcomes k r).delays.get ⟨i, h⟩ = 2 ^ (k + i) * 1000 := by
  intro r
  induction r with
  | zero => intro k h; exact absurd h (by simp)
  | succ r ih =>
    intro k _
    by_cases hok : ∃ e, outcomes k = .ok e
    · obtain ⟨e, he⟩ := hok
      rw [insightsRetryAux_step_ok outcomes k r e he]
      exact ⟨le_refl 1, Nat.le_add_left 1 r, rfl, by intro i h; simp at h⟩
    · have ho : ∀ e, outcomes k ≠ .ok e := by intro e he; exact hok ⟨e, he⟩
      rw [insightsRetryAux_step_err outcomes k r ho]
      by_cases hr : r = 0
      · rw [if_pos hr]
        exact ⟨le_refl 1, Nat.le_add_left 1 r, rfl, by intro i h; simp at h⟩
      · rw [if_neg hr]
        obtain ⟨ih1, ih2, ih3, ih4⟩ := ih (k + 1) (Nat.pos_of_ne_zero hr)
        refine ⟨by simp, by simpa using Nat.add_le_add_right ih2 1, by simpa using ih3, ?_⟩
        intro i h
        cases i with
        | zero => simp
        | succ i =>
          simp only [List.length_cons] at h
          have hi : i < (insightsRetryAux outcomes (k + 1) r).delays.length := by omega
          have := ih4 i hi
          simpa [Nat.add_assoc, Nat.add_comm 1 i] using this

lemma searchRetryAux_allfail (outcomes : Nat → FetchOutcome) :
    ∀ r k, 0 < r →
      (∀ j, j < r → ∀ e, outcomes (k + j) ≠ .ok e) →
      (∀ j, j + 1 < r → hasSubstring "401".data (outcomeMsg (outcomes (k + j))) = false) →
      (searchRetryAux outcomes k r).result = .error (outcomeMsg (outcomes (k + (r - 1)))) := by
  intro r
  induction r with
  | zero => intro k h; exact absurd h (by simp)
  | succ r ih =>
    intro k _ hfail h401
    have ho : ∀ e, outcomes k ≠ .ok e := by simpa using hfail 0 (by omega)
    rw [searchRetryAux_step_err outcomes k r ho]
    by_cases hr : r = 0
    · subst hr
      by_cases h4 : hasSubstring "401".data (outcomeMsg (outcomes k)) = true
      · rw [if_pos h4]; simp
      · rw [if_neg h4, if_pos rfl]; simp
    · have h401k : hasSubstring "401".data (outcomeMsg (outcomes k)) = false := by
        simpa using h401 0 (by omega)
      rw [if_neg (by simp [h401k]), if_neg hr]
      have hrec := ih (k + 1)
        (Nat.pos_of_ne_zero hr)
        (by
          intro j hj e
          have hh := hfail (j + 1) (by omega) e
          have heq : k + (j + 1) = k + 1 + j := by omega
          rw [heq] at hh; exact hh)
        (by
          intro j hj
          have hh := h401 (j + 1) (by omega)
          have heq : k + (j + 1) = k + 1 + j := by omega
          rw [heq] at hh; exact hh)
      have hidx : k + 1 + (r - 1) = k + (r + 1 - 1) := by omega
      rw [hidx] at hrec
      exact hrec

lemma insightsRetryAux_allfail (outcomes : Nat → FetchOutcome) :
    ∀ r k, 0 < r →
      (∀ j, j < r → ∀ e, outcomes (k + j) ≠ .ok e) →
      (insightsRetryAux outcomes k r).result = .error (outcomeMsg (outcomes (k + (r - 1)))) := by
  intro r
  induction r with
  | zero => intro k h; exact absurd h (by simp)
  | succ r ih =>
    intro k _ hfail
    have ho : ∀ e, outcomes k ≠ .ok e := by simpa using hfail 0 (by omega)
    rw [insightsRetryAux_step_err outcomes k r ho]
    by_cases hr : r = 0
    · subst hr; rw [if_pos rfl]; simp
    · rw [if_neg hr]
      have hrec := ih (k + 1)
        (Nat.pos_of_ne_zero hr)
        (by
          intro j hj e
          have hh := hfail (j + 1) (by omega) e
          have heq : k + (j + 1) = k + 1 + j := by omega
          rw [heq] at hh; exact hh)
      have hidx : k + 1 + (r - 1) = k + (r + 1 - 1) := by omega
      rw [hidx] at hrec
      exact hrec

/-! ## C2: retry attempts and backoff -/

/-- C2 (amended): each transport loop performs between 1 and 5 attempts;
exactly one backoff delay separates consecutive attempts, none precedes
the first attempt, and the delay inserted after failed attempt i (that is,
before attempt i+1) is 2^i seconds, i.e. 2^i * 1000 ms; when every attempt
fails (with no short-circuiting 401 before the last search attempt), the
final attempt's error is the one propagated. -/
theorem retryLoop_amended (outcomes : Nat → FetchOutcome) :
    (1 ≤ (fetchStructuredJobDataLoop outcomes).attempts
      ∧ (fetchStructuredJobDataLoop outcomes).attempts ≤ 5)
    ∧ (fetchStructuredJobDataLoop outcomes).delays.length + 1
        = (fetchStructuredJobDataLoop outcomes).attempts
    ∧ (∀ i, ∀ h : i < (fetchStructuredJobDataLoop outcomes).delays.length,
        (fetchStructuredJobDataLoop outcomes).delays.get ⟨i, h⟩ = 2 ^ i * 1000)
    ∧ ((∀ j, j < 5 → ∀ e, outcomes j ≠ .ok e) →
        (∀ j, j + 1 < 5 → hasSubstring "401".data (outcomeMsg (outcomes j)) = false) →
        (fetchStructuredJobDataLoop outcomes).result = .error (outcomeMsg (outcomes 4)))
    ∧ (1 ≤ (fetchAIInsightsLoop outcomes).attempts
      ∧ (fetchAIInsightsLoop outcomes).attempts ≤ 5)
    ∧ (fetchAIInsightsLoop outcomes).delays.length + 1
        = (fetchAIInsightsLoop outcomes).attempts
    ∧ (∀ i, ∀ h : i < (fetchAIInsightsLoop outcomes).delays.length,
        (fetchAIInsightsLoop outcomes).delays.get ⟨i, h⟩ = 2 ^ i * 1000)
    ∧ ((∀ j, j < 5 → ∀ e, outcomes j ≠ .ok e) →
        (fetchAIInsightsLoop outcomes).result = .error (outcomeMsg (outcomes 4))) := by
  obtain ⟨s1, s2, s3, s4⟩ := searchRetryAux_trace outcomes 5 0 (by omega)
  obtain ⟨i1, i2, i3, i4⟩ := insightsRetryAux_trace outcomes 5 0 (by omega)
  refine ⟨⟨s1, s2⟩, s3, ?_, ?_, ⟨i1, i2⟩, i3, ?_, ?_⟩
  · intro i h; simpa using s4 i h
  · intro hfail h401
    have := searchRetryAux_allfail outcomes 5 0 (by omega)
      (by intro j hj e; simpa using hfail j hj e)
      (by intro j hj; simpa using h401 j hj)
    simpa using this
  · intro i h; simpa using i4 i h
  · intro hfail
    have := insightsRetryAux_allfail outcomes 5 0 (by omega)
      (by intro j hj e; simpa using hfail j hj e)
    simpa using this


/-- C2 counterexample: with one failure then success, the single delay —
the one inserted before attempt 1 (0-indexed) — is 2^0 * 1000 = 1000 ms,
not the 2^1 * 1000 ms the claim's formula assigns to attempt 1. -/
theorem retryBackoff_claim_counterexample :
    (fetchStructuredJobDataLoop oneFailOutcomes).delays = [1000]
    ∧ (fetchStructuredJobDataLoop oneFailOutcomes).attempts = 2
    ∧ 2 ^ 1 * 1000 ≠ (1000 : Nat) := by
  refine ⟨by decide, by decide, by decide⟩


/-- C2 witness: on the always-500 outcomes the all-fail hypotheses hold
and the search loop propagates the final attempt's error. -/
theorem retryLoop_amended_witness :
    (∀ j, j < 5 → ∀ e, all500Outcomes j ≠ .ok e)
    ∧ (∀ j, j + 1 < 5 → hasSubstring "401".data (outcomeMsg (all500Outcomes j)) = false)
    ∧ (fetchStructuredJobDataLoop all500Outcomes).result
        = .error (outcomeMsg (all500Outcomes 4)) := by
  have h1 : ∀ j, j < 5 → ∀ e, all500Outcomes j ≠ FetchOutcome.ok e := by
    intro j hj e h; exact FetchOutcome.noConfusion h
  have h2 : ∀ j, j + 1 < 5 →
      hasSubstring "401".data (outcomeMsg (all500Outcomes j)) = false := by
    intro j hj
    exact (by decide : hasSubstring "401".data (outcomeMsg (FetchOutcome.status 500)) = false)
  exact ⟨h1, h2, (retryLoop_amended all500Outcomes).2.2.2.1 h1 h2⟩

/-! ## C3: 401 short-circuit -/

/-- C3: when the first attempt yields HTTP 401 the search transport
performs exactly one attempt with no backoff delay, propagating the 401
message at once, and the monolithic orchestration reclassifies that error
into the dedicated authentication diagnostic while surfacing the fallback
dataset. -/
theorem auth401_single_attempt (outcomes : Nat → FetchOutcome)
    (insF : Except (List Char) (List Char))
    (h : outcomes 0 = .status 401) :
    fetchStructuredJobDataLoop outcomes
      = ⟨.error "HTTP error! status: 401 (Unauthorized)".data, 1, []⟩
    ∧ (searchJsHandleSearch
        (.error "HTTP error! status: 401 (Unauthorized)".data) insF).searchError
        = authFailedMsg
    ∧ (searchJsHandleSearch
        (.error "HTTP error! status: 401 (Unauthorized)".data) insF).isFallbackMode = true
    ∧ (searchJsHandleSearch
        (.error "HTTP error! status: 401 (Unauthorized)".data) insF).jobs
        = processIds RICH_FALLBACK_JOBS := by
  refine ⟨?_, ?_, ?_, ?_⟩
  · have ho : ∀ e, outcomes 0 ≠ .ok e := by intro e he; rw [h] at he; cases he
    have step := searchRetryAux_step_err outcomes 0 4 ho
    have hmsg : outcomeMsg (outcomes 0) = "HTTP error! status: 401 (Unauthorized)".data := by
      rw [h]; decide
    rw [fetchStructuredJobDataLoop]
    show searchRetryAux outcomes 0 (4 + 1) = _
    rw [step, hmsg, if_pos (by decide)]
  · rfl
  · rfl
  · rfl


/-- C3 witness: the always-401 outcomes satisfy the hypothesis and the
search loop records exactly one attempt with the 401 error and no delay. -/
theorem auth401_single_attempt_witness :
    all401Outcomes 0 = FetchOutcome.status 401
    ∧ fetchStructuredJobDataLoop all401Outcomes
        = ⟨.error "HTTP error! status: 401 (Unauthorized)".data, 1, []⟩ :=
  ⟨rfl, (auth401_single_attempt all401Outcomes (.ok []) rfl).1⟩

/-! ## C4: fallback policy -/

/-- C4 (amended): the monolithic orchestration substitutes the stringified
fallback dataset, sets the fallback flag, and surfaces a three-way
diagnostic (authentication / critical with the underlying message /
no results) on every failing or empty outcome, staying live otherwise;
the App.jsx orchestration surfaces the matching diagnostics but
substitutes the empty result set on failure and empty parses, leaving the
fallback flag off. -/
theorem fallbackPolicy_amended (m : List Char) (js : List Job)
    (insF : Except (List Char) (List Char)) (insF2 : Except (List Char) InsightVal) :
    (hasSubstring "HTTP error! status: 401".data m = true →
      searchJsHandleSearch (.error m) insF
        = ⟨processIds RICH_FALLBACK_JOBS, authFailedMsg, true, cannedFallbackInsight⟩)
    ∧ (hasSubstring "HTTP error! status: 401".data m = false →
      searchJsHandleSearch (.error m) insF
        = ⟨processIds RICH_FALLBACK_JOBS, criticalMsgSearchJs m, true, cannedFallbackInsight⟩)
    ∧ searchJsHandleSearch (.ok (.arr [])) insF
        = ⟨processIds RICH_FALLBACK_JOBS, noResultsMsgSearchJs, true, cannedFallbackInsight⟩
    ∧ searchJsHandleSearch (.ok .nonArray) insF
        = ⟨processIds RICH_FALLBACK_JOBS, noResultsMsgSearchJs, true, cannedFallbackInsight⟩
    ∧ (js ≠ [] →
        (searchJsHandleSearch (.ok (.arr js)) insF).isFallbackMode = false
        ∧ (searchJsHandleSearch (.ok (.arr js)) insF).jobs = processIds js
        ∧ (searchJsHandleSearch (.ok (.arr js)) insF).searchError = [])
    ∧ (appHandleSearch false (.error m) insF2).jobs = []
    ∧ (appHandleSearch false (.error m) insF2).isFallbackMode = false
    ∧ (hasSubstring "GEMINI_API_KEY".data m = false →
        (appHandleSearch false (.error m) insF2).searchError = criticalMsgApp m)
    ∧ (hasSubstring "GEMINI_API_KEY".data m = true →
        (appHandleSearch false (.error m) insF2).searchError = configErrorMsg)
    ∧ (appHandleSearch false (.ok (.arr [])) insF2).searchError = noResultsMsgApp := by
  refine ⟨?_, ?_, rfl, rfl, ?_, ?_, rfl, ?_, ?_, rfl⟩
  · intro h401; simp [searchJsHandleSearch, h401]
  · intro h401; simp [searchJsHandleSearch, h401]
  · intro hne
    have hemp : js.isEmpty = false := by
      cases js with
      | nil => exact absurd rfl hne
      | cons a l => rfl
    refine ⟨?_, ?_, ?_⟩ <;> simp [searchJsHandleSearch, hemp]
  · simp [appHandleSearch, processIds, processIdsAux]
  · intro hkey; simp [appHandleSearch, hkey]
  · intro hkey; simp [appHandleSearch, hkey]

/-- C4 counterexample: in App.jsx a failing search stage yields the empty
result set with the fallback flag off — the fixed fallback dataset is not
substituted, refuting the claim for that orchestration. -/
theorem fallbackSubstitution_counterexample :
    (appHandleSearch false (.error "network down".data) (.ok (.text []))).jobs = []
    ∧ (appHandleSearch false (.error "network down".data) (.ok (.text []))).isFallbackMode = false
    ∧ processIds RICH_FALLBACK_JOBS ≠ [] := by
  refine ⟨by decide, by decide, by decide⟩

/-- C4 witness: a concrete non-401 message and non-empty listing list
discharging the conditional parts of the amended fallback theorem. -/
theorem fallbackPolicy_amended_witness :
    hasSubstring "HTTP error! status: 401".data "boom".data = false
    ∧ searchJsHandleSearch (.error "boom".data) (.ok [])
        = ⟨processIds RICH_FALLBACK_JOBS, criticalMsgSearchJs "boom".data, true,
           cannedFallbackInsight⟩ :=
  ⟨by decide,
   (fallbackPolicy_amended "boom".data [] (.ok []) (.ok (.text []))).2.1 (by decide)⟩

/-! ## Decimal rendering and id lemmas -/

lemma digitChar_toNat_of_lt (d : Nat) (h : d < 10) : (Nat.digitChar d).toNat = 48 + d := by
  interval_cases d <;> decide


lemma natToCharsAux_foldl : ∀ fuel n acc : Nat, n ≤ fuel →
    (natToCharsAux fuel n).foldl (fun a c => a * 10 + (c.toNat - 48)) acc
      = acc * 10 ^ (natToCharsAux fuel n).length + n := by
  intro fuel
  induction fuel with
  | zero =>
    intro n acc hn
    have : n = 0 := by omega
    subst this
    simp [natToCharsAux]
  | succ fuel ih =>
    intro n acc hn
    by_cases h0 : n = 0
    · subst h0; simp [natToCharsAux]
    · have hdiv : n / 10 ≤ fuel := by
        have := Nat.div_lt_self (Nat.pos_of_ne_zero h0) (by norm_num : (1 : Nat) < 10)
        omega
      have hstep : natToCharsAux (fuel + 1) n
          = natToCharsAux fuel (n / 10) ++ [Nat.digitChar (n % 10)] := by
        simp [natToCharsAux, h0]
      rw [hstep, List.foldl_append, ih (n / 10) acc hdiv]
      have hd : (Nat.digitChar (n % 10)).toNat - 48 = n % 10 := by
        rw [digitChar_toNat_of_lt _ (Nat.mod_lt _ (by norm_num))]; omega
      simp only [List.foldl_cons, List.foldl_nil, List.length_append, List.length_cons,
        List.length_nil, hd]
      have hpow : acc * 10 ^ ((natToCharsAux fuel (n / 10)).length + (0 + 1))
          = acc * 10 ^ (natToCharsAux fuel (n / 10)).length * 10 := by ring
      rw [hpow]
      generalize acc * 10 ^ (natToCharsAux fuel (n / 10)).length = B
      omega

lemma decodeDec_natToChars (n : Nat) : decodeDec (natToChars n) = n := by
  by_cases h0 : n = 0
  · subst h0; decide
  · have := natToCharsAux_foldl (n + 1) n 0 (by omega)
    simp only [natToChars, h0, if_false, decodeDec]
    simpa using this

lemma natToChars_injective : Function.Injective natToChars := by
  intro m n h
  have := congrArg decodeDec h
  rwa [decodeDec_natToChars, decodeDec_natToChars] at this

lemma fallbackJobId_injective {i j : Nat} (h : fallbackJobId i = fallbackJobId j) : i = j :=
  natToChars_injective (List.append_cancel_left h)

lemma processIdsAux_length (k : Nat) (jobs : List Job) :
    (processIdsAux k jobs).length = jobs.length := by
  induction jobs generalizing k with
  | nil => simp [processIdsAux]
  | cons j rest ih => simp [processIdsAux, ih]

lemma processIdsAux_get : ∀ (jobs : List Job) (k i : Nat)
    (h1 : i < jobs.length) (h2 : i < (processIdsAux k jobs).length),
    (processIdsAux k jobs).get ⟨i, h2⟩
      = { jobs.get ⟨i, h1⟩ with id := IdVal.str (finalIdChars (k + i) (jobs.get ⟨i, h1⟩)) } := by
  intro jobs
  induction jobs with
  | nil => intro k i h1; simp at h1
  | cons j rest ih =>
    intro k i h1 h2
    cases i with
    | zero => simp [processIdsAux]
    | succ i =>
      have h1' : i < rest.length := by simpa using Nat.lt_of_succ_lt_succ h1
      have h2' : i < (processIdsAux (k + 1) rest).length := by
        rw [processIdsAux_length]; exact h1'
      have step := ih (k + 1) i h1' h2'
      have hidx : k + 1 + i = k + (i + 1) := by omega
      rw [hidx] at step
      exact step

/-! ## C8: id uniqueness after post-processing -/

/-- C8 (amended): post-processing keeps the list length, rewrites every
listing's id to String(id) when the source id is truthy and to the
position-keyed synthetic id fallback-job-i otherwise; the resulting ids
are pairwise distinct whenever the truthy source ids stringify pairwise
distinctly and avoid the synthetic namespace — duplicate truthy ids are
passed through unchanged, not replaced. -/
theorem processIds_amended (jobs : List Job) :
    (processIds jobs).length = jobs.length
    ∧ (∀ i : Fin jobs.length, ∀ h : i.val < (processIds jobs).length,
        (processIds jobs).get ⟨i.val, h⟩
          = { jobs.get i with id := IdVal.str (finalIdChars i.val (jobs.get i)) })
    ∧ ((∀ i j : Fin jobs.length, i ≠ j →
          truthyId (jobs.get i).id = true → truthyId (jobs.get j).id = true →
          idToChars (jobs.get i).id ≠ idToChars (jobs.get j).id) →
       (∀ i j : Fin jobs.length, truthyId (jobs.get i).id = true →
          idToChars (jobs.get i).id ≠ fallbackJobId j.val) →
       ((processIds jobs).map (fun jb => jb.id)).Nodup) := by
  have hlen : (processIds jobs).length = jobs.length := processIdsAux_length 0 jobs
  refine ⟨hlen, ?_, ?_⟩
  · intro i h
    have := processIdsAux_get jobs 0 i.val i.isLt h
    simpa [processIds] using this
  · intro hdis hcross
    rw [List.nodup_iff_injective_get]
    intro a b hab
    have hmaplen : ((processIds jobs).map (fun jb => jb.id)).length = jobs.length := by
      simpa using hlen
    have ha : a.val < jobs.length := by rw [← hmaplen]; exact a.isLt
    have hb : b.val < jobs.length := by rw [← hmaplen]; exact b.isLt
    have ha2 : a.val < (processIds jobs).length := by rw [hlen]; exact ha
    have hb2 : b.val < (processIds jobs).length := by rw [hlen]; exact hb
    have hgeta := processIdsAux_get jobs 0 a.val ha ha2
    have hgetb := processIdsAux_get jobs 0 b.val hb hb2
    rw [List.get_map, List.get_map] at hab
    have hab2 : ((processIds jobs).get ⟨a.val, ha2⟩).id
        = ((processIds jobs).get ⟨b.val, hb2⟩).id := by
      simpa [processIds] using hab
    have e1 : ((processIds jobs).get ⟨a.val, ha2⟩).id
        = IdVal.str (finalIdChars (0 + a.val) (jobs.get ⟨a.val, ha⟩)) := by
      show ((processIdsAux 0 jobs).get ⟨a.val, ha2⟩).id = _
      rw [hgeta]
    have e2 : ((processIds jobs).get ⟨b.val, hb2⟩).id
        = IdVal.str (finalIdChars (0 + b.val) (jobs.get ⟨b.val, hb⟩)) := by
      show ((processIdsAux 0 jobs).get ⟨b.val, hb2⟩).id = _
      rw [hgetb]
    have hstr : IdVal.str (finalIdChars (0 + a.val) (jobs.get ⟨a.val, ha⟩))
        = IdVal.str (finalIdChars (0 + b.val) (jobs.get ⟨b.val, hb⟩)) := by
      rw [← e1, ← e2]; exact hab2
    have hfin : finalIdChars (a.val) (jobs.get ⟨a.val, ha⟩)
        = finalIdChars (b.val) (jobs.get ⟨b.val, hb⟩) := by
      have := hstr
      simp only [IdVal.str.injEq, Nat.zero_add] at this
      exact this
    by_contra hne
    have hvalne : a.val ≠ b.val := by
      intro hv; exact hne (Fin.ext hv)
    cases hta : truthyId (jobs.get ⟨a.val, ha⟩).id <;>
      cases htb : truthyId (jobs.get ⟨b.val, hb⟩).id
    · -- both falsy: synthetic ids are position-injective
      rw [finalIdChars, finalIdChars, hta, htb] at hfin
      simp only [Bool.false_eq_true, if_false] at hfin
      exact hvalne (fallbackJobId_injective hfin)
    · -- a falsy, b truthy
      rw [finalIdChars, finalIdChars, hta, htb] at hfin
      simp only [Bool.false_eq_true, if_false, if_true] at hfin
      exact hcross ⟨b.val, hb⟩ ⟨a.val, ha⟩ htb hfin.symm
    · -- a truthy, b falsy
      rw [finalIdChars, finalIdChars, hta, htb] at hfin
      simp only [Bool.false_eq_true, if_false, if_true] at hfin
      exact hcross ⟨a.val, ha⟩ ⟨b.val, hb⟩ hta hfin
    · -- both truthy: pairwise distinct by hypothesis
      rw [finalIdChars, finalIdChars, hta, htb] at hfin
      simp only [if_true] at hfin
      exact hdis ⟨a.val, ha⟩ ⟨b.val, hb⟩ (by simpa [Fin.ext_iff] using hvalne) hta htb hfin

/-- C8 counterexample: a duplicate source id survives post-processing
verbatim — both listings end up with id "7", so the processed result set's
ids are not unique, refuting the claimed invariant. -/
theorem uniqueIds_counterexample :
    ((processIds dupIdJobs).map (fun jb => jb.id))
      = [IdVal.str "7".data, IdVal.str "7".data]
    ∧ ¬ ((processIds dupIdJobs).map (fun jb => jb.id)).Nodup := by
  refine ⟨by decide, by decide⟩


/-- C8 witness: on a list with distinct truthy ids and one missing id the
hypotheses hold and the processed ids are pairwise distinct. -/
theorem processIds_amended_witness :
    (∀ i j : Fin mixedIdJobs.length, i ≠ j →
        truthyId (mixedIdJobs.get i).id = true → truthyId (mixedIdJobs.get j).id = true →
        idToChars (mixedIdJobs.get i).id ≠ idToChars (mixedIdJobs.get j).id)
    ∧ (∀ i j : Fin mixedIdJobs.length, truthyId (mixedIdJobs.get i).id = true →
        idToChars (mixedIdJobs.get i).id ≠ fallbackJobId j.val)
    ∧ ((processIds mixedIdJobs).map (fun jb => jb.id)).Nodup :=
  ⟨by decide, by decide, (processIds_amended mixedIdJobs).2.2 (by decide) (by decide)⟩

/-! ## Extractor lemmas -/

lemma startsWithFence_cons_false {a : Char} (l : List Char) (ha : a ≠ backtick) :
    startsWithFence (a :: l) = false := by
  cases l with
  | nil => rfl
  | cons b l2 =>
    cases l2 with
    | nil => rfl
    | cons c l3 => simp [startsWithFence, ha]

lemma startsWithFence_true_decomp : ∀ {l : List Char}, startsWithFence l = true →
    ∃ rest, l = backtick :: backtick :: backtick :: rest := by
  intro l h
  match l, h with
  | a :: b :: c :: rest, h =>
    simp only [startsWithFence, Bool.and_eq_true, decide_eq_true_eq] at h
    obtain ⟨⟨ha, hb⟩, hc⟩ := h
    exact ⟨rest, by rw [ha, hb, hc]⟩

lemma splitAtFence_append (pre : List Char) (s : List Char)
    (hp : ∀ c ∈ pre, c ≠ backtick) :
    splitAtFence (pre ++ fenceChars ++ s) = some (pre, s) := by
  induction pre with
  | nil =>
    show splitAtFence (backtick :: backtick :: backtick :: s) = some ([], s)
    simp [splitAtFence, startsWithFence]
  | cons a pre ih =>
    have ha : a ≠ backtick := hp a (by simp)
    have hp' : ∀ c ∈ pre, c ≠ backtick := fun c hc => hp c (by simp [hc])
    show splitAtFence (a :: (pre ++ fenceChars ++ s)) = some (a :: pre, s)
    rw [splitAtFence, if_neg (by simp [startsWithFence_cons_false _ ha]), ih hp']
    rfl

lemma splitAtFence_isSome (a b : List Char) :
    (splitAtFence (a ++ fenceChars ++ b)).isSome = true := by
  induction a with
  | nil => rw [splitAtFence_append [] b (by simp)]; rfl
  | cons x a ih =>
    show (splitAtFence (x :: (a ++ fenceChars ++ b))).isSome = true
    rw [splitAtFence]
    by_cases hx : startsWithFence (x :: (a ++ fenceChars ++ b)) = true
    · rw [if_pos hx]; rfl
    · rw [if_neg hx, Option.isSome_map']; exact ih

lemma splitAtFence_sound : ∀ {t p q : List Char},
    splitAtFence t = some (p, q) → t = p ++ fenceChars ++ q := by
  intro t
  induction t with
  | nil => intro p q h; simp [splitAtFence] at h
  | cons a rest ih =>
    intro p q h
    rw [splitAtFence] at h
    by_cases hf : startsWithFence (a :: rest) = true
    · rw [if_pos hf] at h
      obtain ⟨rest2, hrest⟩ := startsWithFence_true_decomp hf
      simp only [Option.some.injEq, Prod.mk.injEq] at h
      obtain ⟨hp, hq⟩ := h
      subst hp
      rw [hrest] at hq ⊢
      simp only [List.drop_succ_cons, List.drop_zero] at hq
      rw [← hq]
      rfl
    · rw [if_neg hf] at h
      obtain ⟨⟨p', q'⟩, hsp, heq⟩ := Option.map_eq_some'.mp h
      simp only [Prod.mk.injEq] at heq
      obtain ⟨hp, hq⟩ := heq
      subst hp
      subst hq
      rw [ih hsp]
      rfl

lemma splitAtFence_snd (a b c : List Char) :
    ∃ p q, splitAtFence (a ++ fenceChars ++ b ++ fenceChars ++ c) = some (p, q)
      ∧ ∃ x, q = x ++ fenceChars ++ c := by
  induction a with
  | nil =>
    exact ⟨[], b ++ fenceChars ++ c, splitAtFence_append [] _ (by simp), b, rfl⟩
  | cons z a ih =>
    by_cases hz : startsWithFence (z :: (a ++ fenceChars ++ b ++ fenceChars ++ c)) = true
    · refine ⟨[], (z :: (a ++ fenceChars ++ b ++ fenceChars ++ c)).drop 3, ?_, ?_⟩
      · show splitAtFence (z :: (a ++ fenceChars ++ b ++ fenceChars ++ c)) = _
        rw [splitAtFence, if_pos hz]
      · refine ⟨(z :: (a ++ fenceChars ++ b)).drop 3, ?_⟩
        have hX : z :: (a ++ fenceChars ++ b ++ fenceChars ++ c)
            = (z :: (a ++ fenceChars ++ b)) ++ (fenceChars ++ c) := by simp
        rw [hX, List.drop_append_of_le_length (by simp [fenceChars]; omega)]
        simp
    · obtain ⟨p, q, hsp, x, hx⟩ := ih
      refine ⟨z :: p, q, ?_, x, hx⟩
      show splitAtFence (z :: (a ++ fenceChars ++ b ++ fenceChars ++ c)) = _
      rw [splitAtFence, if_neg hz, hsp]
      rfl

lemma hasJsonTag_json_append (rest : List Char) :
    hasJsonTag ("json".data ++ rest) = true := by
  simp [hasJsonTag, listStartsWith]

lemma hasJsonTag_decomp {q : List Char} (h : hasJsonTag q = true) :
    q = 'j' :: 's' :: 'o' :: 'n' :: q.drop 4 := by
  obtain ⟨rest, rfl⟩ := (listStartsWith_iff _ _).mp h
  rfl

lemma hasJsonTag_short_append (body rest : List Char) (hnt : hasJsonTag body = false) :
    hasJsonTag (body ++ fenceChars ++ rest) = false := by
  match body with
  | [] => simp +decide [hasJsonTag, listStartsWith, fenceChars]
  | [b1] => simp +decide [hasJsonTag, listStartsWith, fenceChars]
  | [b1, b2] => simp +decide [hasJsonTag, listStartsWith, fenceChars]
  | [b1, b2, b3] => simp +decide [hasJsonTag, listStartsWith, fenceChars]
  | b1 :: b2 :: b3 :: b4 :: body4 =>
    simp only [hasJsonTag, listStartsWith, List.cons_append] at hnt ⊢
    exact hnt

lemma hasJsonTag_fence_decomp {x y : List Char}
    (h : hasJsonTag (x ++ fenceChars ++ y) = true) :
    ∃ x', x = 'j' :: 's' :: 'o' :: 'n' :: x' := by
  match x, h with
  | [], h => exact absurd h (by simp +decide [hasJsonTag, listStartsWith, fenceChars])
  | [a], h => exact absurd h (by simp +decide [hasJsonTag, listStartsWith, fenceChars])
  | [a, b], h => exact absurd h (by simp +decide [hasJsonTag, listStartsWith, fenceChars])
  | [a, b, c], h => exact absurd h (by simp +decide [hasJsonTag, listStartsWith, fenceChars])
  | a :: b :: c :: d :: x', h =>
    simp only [hasJsonTag, listStartsWith, List.cons_append, Bool.and_eq_true,
      decide_eq_true_eq] at h
    exact ⟨x', by rw [← h.1, ← h.2.1, ← h.2.2.1, ← h.2.2.2.1]⟩

lemma fenceInterior_some_decomp {t i : List Char} (h : fenceInterior t = some i) :
    ∃ a b c, t = a ++ fenceChars ++ b ++ fenceChars ++ c := by
  unfold fenceInterior at h
  cases hsp : splitAtFence t with
  | none => rw [hsp] at h; simp at h
  | some pq =>
    obtain ⟨p, q⟩ := pq
    rw [hsp] at h
    simp only at h
    have ht := splitAtFence_sound hsp
    by_cases htag : hasJsonTag q = true
    · rw [if_pos htag] at h
      cases hs2 : splitAtFence (q.drop 4) with
      | none => rw [hs2] at h; simp at h
      | some ir =>
        obtain ⟨i', r⟩ := ir
        have hq4 := splitAtFence_sound hs2
        have hq := hasJsonTag_decomp htag
        refine ⟨p, 'j' :: 's' :: 'o' :: 'n' :: i', r, ?_⟩
        rw [ht, hq, hq4]
        simp
    · rw [if_neg htag] at h
      cases hs2 : splitAtFence q with
      | none => rw [hs2] at h; simp at h
      | some ir =>
        obtain ⟨i', r⟩ := ir
        have hq := splitAtFence_sound hs2
        refine ⟨p, i', r, ?_⟩
        rw [ht, hq]
        simp

lemma fenceInterior_eq_none {t : List Char}
    (hnf : ¬ ∃ x y z, t = x ++ fenceChars ++ y ++ fenceChars ++ z) :
    fenceInterior t = none := by
  cases hfi : fenceInterior t with
  | none => rfl
  | some i => exact absurd (fenceInterior_some_decomp hfi) hnf

lemma upToLastClose_none (c : List Char) (hc : ∀ ch ∈ c, ch ≠ ']') :
    upToLastClose c = none := by
  induction c with
  | nil => rfl
  | cons y c ih =>
    have hy : y ≠ ']' := hc y (by simp)
    have hrec : upToLastClose c = none := ih (fun ch h => hc ch (by simp [h]))
    simp [upToLastClose, hrec, hy]

lemma upToLastClose_append (b c : List Char) (hc : ∀ ch ∈ c, ch ≠ ']') :
    upToLastClose (b ++ ']' :: c) = some (b ++ [']']) := by
  induction b with
  | nil => simp [upToLastClose, upToLastClose_none c hc]
  | cons x b ih => simp [upToLastClose, ih]

lemma upToLastClose_some_decomp : ∀ {l s : List Char}, upToLastClose l = some s →
    ∃ b c, l = b ++ ']' :: c := by
  intro l
  induction l with
  | nil => intro s h; simp [upToLastClose] at h
  | cons y l ih =>
    intro s h
    rw [upToLastClose] at h
    cases hrec : upToLastClose l with
    | some tail =>
      obtain ⟨b, c, hl⟩ := ih hrec
      exact ⟨y :: b, c, by rw [hl]; rfl⟩
    | none =>
      rw [hrec] at h
      by_cases hy : y = ']'
      · subst hy
        exact ⟨[], l, rfl⟩
      · simp [hy] at h

lemma dropWhile_eq_cons_decomp (p : Char → Bool) :
    ∀ {t : List Char} {x : Char} {xs : List Char}, t.dropWhile p = x :: xs →
      p x = false ∧ ∃ a, t = a ++ x :: xs ∧ ∀ ch ∈ a, p ch = true := by
  intro t
  induction t with
  | nil => intro x xs h; simp at h
  | cons y t ih =>
    intro x xs h
    rw [List.dropWhile_cons] at h
    by_cases hy : p y = true
    · rw [if_pos hy] at h
      obtain ⟨hx, a, ht, ha⟩ := ih h
      refine ⟨hx, y :: a, by rw [ht]; rfl, ?_⟩
      intro ch hch
      rcases List.mem_cons.mp hch with hch | hch
      · rw [hch]; exact hy
      · exact ha ch hch
    · rw [if_neg hy] at h
      cases h
      exact ⟨by simpa using hy, [], rfl, by simp⟩

lemma arraySpan_eval (a b c : List Char) (ha : ∀ ch ∈ a, ch ≠ '[')
    (hc : ∀ ch ∈ c, ch ≠ ']') :
    arraySpan (a ++ '[' :: (b ++ ']' :: c)) = some ('[' :: (b ++ [']'])) := by
  have hdw : (a ++ '[' :: (b ++ ']' :: c)).dropWhile (fun ch => ch ≠ '[')
      = '[' :: (b ++ ']' :: c) := by
    induction a with
    | nil => simp [List.dropWhile_cons]
    | cons x a ih =>
      have hx : x ≠ '[' := ha x (by simp)
      have ih2 := ih (fun ch h => ha ch (by simp [h]))
      simpa [List.dropWhile_cons, hx] using ih2
  rw [arraySpan.eq_def, hdw]
  simp only
  rw [upToLastClose_append b c hc]

lemma arraySpan_some_decomp {t s : List Char} (h : arraySpan t = some s) :
    ∃ a b c, t = a ++ '[' :: (b ++ ']' :: c) := by
  rw [arraySpan.eq_def] at h
  cases hdw : t.dropWhile (fun ch => ch ≠ '[') with
  | nil => rw [hdw] at h; simp at h
  | cons br tail =>
    rw [hdw] at h
    simp only at h
    obtain ⟨hbr, a, hta, _⟩ := dropWhile_eq_cons_decomp _ hdw
    have hbr2 : br = '[' := by simpa using hbr
    cases hul : upToLastClose tail with
    | none => rw [hul] at h; simp at h
    | some body =>
      obtain ⟨b, c, htail⟩ := upToLastClose_some_decomp hul
      subst hbr2
      exact ⟨a, b, c, by rw [hta, htail]⟩

lemma arraySpan_eq_none {t : List Char}
    (hna : ¬ ∃ x y z, t = x ++ '[' :: (y ++ ']' :: z)) : arraySpan t = none := by
  cases hsp : arraySpan t with
  | none => rfl
  | some s => exact absurd (arraySpan_some_decomp hsp) hna

/-! ## C1: the extractor's priority contract -/

/-- C1: extractJsonFromText is total and follows the spec's priority
order.  (1) With a well-formed fenced block first in the text (clean
prefix and interior), it returns the trimmed interior; (2) likewise when
the block is tagged json, the tag is not part of the interior; (3) with no
fenced block but a bracketed array, it returns the trimmed span from the
first opening bracket to the last closing bracket; (4) with neither, it
returns the whole text trimmed. -/
theorem extractJsonFromText_spec :
    (∀ pre body post : List Char,
        (∀ c ∈ pre, c ≠ backtick) → (∀ c ∈ body, c ≠ backtick) →
        hasJsonTag body = false →
        extractJsonFromText (pre ++ fenceChars ++ body ++ fenceChars ++ post) = trimJs body)
    ∧ (∀ pre body post : List Char,
        (∀ c ∈ pre, c ≠ backtick) → (∀ c ∈ body, c ≠ backtick) →
        extractJsonFromText (pre ++ fenceChars ++ "json".data ++ body ++ fenceChars ++ post)
          = trimJs body)
    ∧ (∀ t a b c : List Char,
        (¬ ∃ x y z, t = x ++ fenceChars ++ y ++ fenceChars ++ z) →
        t = a ++ '[' :: (b ++ ']' :: c) →
        (∀ ch ∈ a, ch ≠ '[') → (∀ ch ∈ c, ch ≠ ']') →
        extractJsonFromText t = trimJs ('[' :: (b ++ [']'])))
    ∧ (∀ t : List Char,
        (¬ ∃ x y z, t = x ++ fenceChars ++ y ++ fenceChars ++ z) →
        (¬ ∃ x y z, t = x ++ '[' :: (y ++ ']' :: z)) →
        extractJsonFromText t = trimJs t) := by
  refine ⟨?_, ?_, ?_, ?_⟩
  · intro pre body post hp hb hnt
    rw [show pre ++ fenceChars ++ body ++ fenceChars ++ post
          = pre ++ fenceChars ++ (body ++ fenceChars ++ post) from by simp]
    have h1 := splitAtFence_append pre (body ++ fenceChars ++ post) hp
    have h2 := hasJsonTag_short_append body post hnt
    have h3 := splitAtFence_append body post hb
    have hfi : fenceInterior (pre ++ fenceChars ++ (body ++ fenceChars ++ post))
        = some body := by
      rw [fenceInterior, h1]
      simp only [h2, Bool.false_eq_true, if_false, h3]
    simp only [extractJsonFromText, hfi]
  · intro pre body post hp hb
    rw [show pre ++ fenceChars ++ "json".data ++ body ++ fenceChars ++ post
          = pre ++ fenceChars ++ ("json".data ++ (body ++ fenceChars ++ post)) from by simp]
    have h1 := splitAtFence_append pre ("json".data ++ (body ++ fenceChars ++ post)) hp
    have h2 := hasJsonTag_json_append (body ++ fenceChars ++ post)
    have hdrop : ("json".data ++ (body ++ fenceChars ++ post)).drop 4
        = body ++ fenceChars ++ post := rfl
    have h3 := splitAtFence_append body post hb
    have hfi : fenceInterior (pre ++ fenceChars ++ ("json".data ++ (body ++ fenceChars ++ post)))
        = some body := by
      rw [fenceInterior, h1]
      simp only [h2, if_true, hdrop, h3]
    simp only [extractJsonFromText, hfi]
  · intro t a b c hnf ht ha hc
    subst ht
    simp only [extractJsonFromText, fenceInterior_eq_none hnf, arraySpan_eval a b c ha hc]
  · intro t h1 h2
    simp only [extractJsonFromText, fenceInterior_eq_none h1, arraySpan_eq_none h2]

/-- C1 witness: a concrete text with prose around a fenced block; the
extractor returns the trimmed interior. -/
theorem extractJsonFromText_spec_witness :
    (∀ c ∈ "AI says: ".data, c ≠ backtick)
    ∧ (∀ c ∈ " [1, 2] ".data, c ≠ backtick)
    ∧ hasJsonTag " [1, 2] ".data = false
    ∧ extractJsonFromText
        ("AI says: ".data ++ fenceChars ++ " [1, 2] ".data ++ fenceChars ++ " done".data)
        = trimJs " [1, 2] ".data :=
  ⟨by decide, by decide, by decide,
   extractJsonFromText_spec.1 "AI says: ".data " [1, 2] ".data " done".data
     (by decide) (by decide) (by decide)⟩

end JobScanner
